import Mathlib

/-!
Verification of the temporal partitioning and aggregation engine of the
make_ends_meet repository (span generation in `date_handler.py` and
`source/date_handler.py`, entry filtering and aggregation in
`account_book.py` and `data_manager.py`).

Dates are embedded as year/month/day triples with the proleptic Gregorian
calendar arithmetic used by Python's `datetime.date`: `toOrdinal` is the
day count since 0001-01-00 (so 0001-01-01 is day 1), `Date.succ` is
`+ date.resolution`, and `Date.weekday` is Monday-0 indexing.
-/

/-- A calendar date, as Python's `datetime.date` (year, month, day). -/
structure Date where
  year : Nat
  month : Nat
  day : Nat
deriving DecidableEq, Repr

/-- Leap-year test of the Gregorian calendar (Python `calendar.isleap`). -/
def isLeapYear (y : Nat) : Bool :=
  y % 4 == 0 && (y % 100 != 0 || y % 400 == 0)

/-- Number of days of month `m` of year `y` (Python `calendar.monthrange(y, m)[1]`). -/
def daysInMonth (y m : Nat) : Nat :=
  if m = 2 then (if isLeapYear y then 29 else 28)
  else if m = 4 ∨ m = 6 ∨ m = 9 ∨ m = 11 then 30
  else 31

/-- Total number of days of months `1..m` of year `y`. -/
def daysUpTo (y : Nat) : Nat → Nat
  | 0 => 0
  | m + 1 => daysUpTo y m + daysInMonth y (m + 1)

/-- Number of days of year `y` strictly before month `m`. -/
def daysBeforeMonth (y m : Nat) : Nat := daysUpTo y (m - 1)

/-- Number of days strictly before year `y` (CPython `_days_before_year`). -/
def daysBeforeYear (y : Nat) : Nat :=
  365 * (y - 1) + (y - 1) / 4 - (y - 1) / 100 + (y - 1) / 400

/-- Proleptic Gregorian ordinal of a date (Python `date.toordinal`). -/
def toOrdinal (d : Date) : Nat :=
  daysBeforeYear d.year + daysBeforeMonth d.year d.month + d.day

/-- The date is a well-formed proleptic Gregorian calendar date. -/
def Date.Valid (d : Date) : Prop :=
  1 ≤ d.year ∧ 1 ≤ d.month ∧ d.month ≤ 12 ∧ 1 ≤ d.day ∧ d.day ≤ daysInMonth d.year d.month

instance (d : Date) : Decidable d.Valid := by
  unfold Date.Valid
  exact inferInstance

/-- Python date comparison: lexicographic on (year, month, day). -/
def Date.le (a b : Date) : Prop :=
  a.year < b.year ∨ (a.year = b.year ∧ (a.month < b.month ∨ (a.month = b.month ∧ a.day ≤ b.day)))

/-- Python strict date comparison: lexicographic on (year, month, day). -/
def Date.lt (a b : Date) : Prop :=
  a.year < b.year ∨ (a.year = b.year ∧ (a.month < b.month ∨ (a.month = b.month ∧ a.day < b.day)))

instance (a b : Date) : Decidable (Date.le a b) := by
  unfold Date.le
  exact inferInstance

instance (a b : Date) : Decidable (Date.lt a b) := by
  unfold Date.lt
  exact inferInstance

/-- The next calendar day (Python `d + date.resolution`). -/
def Date.succ (d : Date) : Date :=
  if d.day < daysInMonth d.year d.month then ⟨d.year, d.month, d.day + 1⟩
  else if d.month < 12 then ⟨d.year, d.month + 1, 1⟩
  else ⟨d.year + 1, 1, 1⟩

/-- The previous calendar day (Python `d - date.resolution`). -/
def Date.pred (d : Date) : Date :=
  if 1 < d.day then ⟨d.year, d.month, d.day - 1⟩
  else if 1 < d.month then ⟨d.year, d.month - 1, daysInMonth d.year (d.month - 1)⟩
  else ⟨d.year - 1, 12, 31⟩

/-- Python `d + n*date.resolution` for `n ≥ 0`. -/
def Date.addDays (d : Date) : Nat → Date
  | 0 => d
  | n + 1 => Date.succ (Date.addDays d n)

/-- Python `d - n*date.resolution` for `n ≥ 0`. -/
def Date.subDays (d : Date) : Nat → Date
  | 0 => d
  | n + 1 => Date.pred (Date.subDays d n)

/-- Python `date.weekday()`: Monday is 0, Sunday is 6. -/
def Date.weekday (d : Date) : Nat := (toOrdinal d + 6) % 7

/-- Python `date.min`, i.e. 0001-01-01. -/
def dateMin : Date := ⟨1, 1, 1⟩

/-- Python `date.max`, i.e. 9999-12-31. -/
def dateMax : Date := ⟨9999, 12, 31⟩

/-- The `Span` namedtuple of `date_handler.py`: a closed date interval. -/
structure Span where
  start : Date
  stop : Date
deriving DecidableEq, Repr

/-- The uniform `while True: stop = f(start); yield Span(start, stop); if stop >= end:
break; start = stop + date.resolution` loop shared by all span generators of
`date_handler.py` and `source/date_handler.py`. The fuel argument bounds the
number of iterations; `none` means the fuel ran out before the loop broke. -/
def spanLoop (stopFn : Date → Date) (last : Date) : Nat → Date → Option (List Span)
  | 0, _ => none
  | fuel + 1, start =>
    if Date.le last (stopFn start) then some [⟨start, stopFn start⟩]
    else (spanLoop stopFn last fuel (Date.succ (stopFn start))).map
      (fun rest => ⟨start, stopFn start⟩ :: rest)

namespace DateHandler

/-- The `'year'` span generator of `date_handler.py`: `start = date(begin.year, 1, 1)`,
`stop = date(start.year, 12, 31)`. -/
def generate_year_span (b e : Date) : Option (List Span) :=
  spanLoop (fun s => ⟨s.year, 12, 31⟩) e (toOrdinal e) ⟨b.year, 1, 1⟩

/-- The `'month'` span generator of `date_handler.py`: `start = date(begin.year,
begin.month, 1)`, `stop = start + (monthrange(start.year, start.month)[1] - 1)*resolution`. -/
def generate_month_span (b e : Date) : Option (List Span) :=
  spanLoop (fun s => Date.addDays s (daysInMonth s.year s.month - 1)) e (toOrdinal e)
    ⟨b.year, b.month, 1⟩

/-- The `'week'` span generator of `date_handler.py`: `start = begin -
begin.weekday()*resolution`, `stop = start + 6*resolution`. -/
def generate_week_span (b e : Date) : Option (List Span) :=
  spanLoop (fun s => Date.addDays s 6) e (toOrdinal e) (Date.subDays b (Date.weekday b))

/-- The `'day'` span generator of `date_handler.py`: `start = begin`, `stop = start`. -/
def generate_day_span (b e : Date) : Option (List Span) :=
  spanLoop (fun s => s) e (toOrdinal e) b

/-- The `Duration._span_generators` registry of `date_handler.py`, populated by the
four `@Duration.span_generator(...)` decorator applications. -/
def span_generators (period : String) : Option (Date → Date → Option (List Span)) :=
  if period = "year" then some generate_year_span
  else if period = "month" then some generate_month_span
  else if period = "week" then some generate_week_span
  else if period = "day" then some generate_day_span
  else none

/-- The errors `Duration.__init__` can raise (both `ValueError`s in Python,
distinguished by their message). -/
inductive DurationError where
  | invalidRange
  | unknownGranularity
deriving DecidableEq, Repr

/-- The `Duration` object of `date_handler.py` after successful construction. -/
structure Duration where
  begin_ : Date
  end_ : Date
  period : String
deriving DecidableEq, Repr

/-- The body of `Duration.__init__` of `date_handler.py`: raise on `begin > end`,
then look the period up in the registry, raising if it is not registered. -/
def Duration.init (b e : Date) (period : String) : Except DurationError Duration :=
  if Date.lt e b then .error .invalidRange
  else if (span_generators period).isSome then .ok ⟨b, e, period⟩
  else .error .unknownGranularity

end DateHandler

namespace SourceDateHandler

/-- The `'year'` span generator of `source/date_handler.py`: `start = begin`,
`increment = date(start.year + 1, 1, 1) - date(start.year, 1, 1) - resolution`. -/
def generate_year_span (b e : Date) : Option (List Span) :=
  spanLoop
    (fun s => Date.addDays s ((toOrdinal ⟨s.year + 1, 1, 1⟩ - toOrdinal ⟨s.year, 1, 1⟩) - 1))
    e (toOrdinal e) b

/-- The `'month'` span generator of `source/date_handler.py`: `start = begin`,
`increment = date(start.year + start.month//12, start.month%12 + 1, 1) -
date(start.year, start.month, 1) - resolution`. -/
def generate_month_span (b e : Date) : Option (List Span) :=
  spanLoop
    (fun s => Date.addDays s
      ((toOrdinal ⟨s.year + s.month / 12, s.month % 12 + 1, 1⟩ -
        toOrdinal ⟨s.year, s.month, 1⟩) - 1))
    e (toOrdinal e) b

/-- The `'week'` span generator of `source/date_handler.py`: `start = begin`,
`stop = start + 6*resolution`. -/
def generate_week_span (b e : Date) : Option (List Span) :=
  spanLoop (fun s => Date.addDays s 6) e (toOrdinal e) b

/-- The `'day'` span generator of `source/date_handler.py`: `start = begin`,
`stop = start`. -/
def generate_day_span (b e : Date) : Option (List Span) :=
  spanLoop (fun s => s) e (toOrdinal e) b

/-- The `Duration._span_generators` registry of `source/date_handler.py`. -/
def span_generators (period : String) : Option (Date → Date → Option (List Span)) :=
  if period = "year" then some generate_year_span
  else if period = "month" then some generate_month_span
  else if period = "week" then some generate_week_span
  else if period = "day" then some generate_day_span
  else none

/-- The body of `Duration.__init__` of `source/date_handler.py` (identical to the
top-level file). -/
def Duration.init (b e : Date) (period : String) :
    Except DateHandler.DurationError DateHandler.Duration :=
  if Date.lt e b then .error .invalidRange
  else if (span_generators period).isSome then .ok ⟨b, e, period⟩
  else .error .unknownGranularity

end SourceDateHandler

/-- The `Entry` namedtuple of `account_book.py`: date, income, outgo, and the
list of groups (the category path) of one transaction. -/
structure Entry where
  date : Date
  income : Int
  outgo : Int
  groups : List String
deriving DecidableEq, Repr

/-- Helper shared by `Entry.filter_groups` and `Entry.is_in_groups`:
`all(g1 == g2 for g1, g2 in zip(xs, ys))`. Python's `zip` truncates to the
shorter sequence. -/
def zipAllEq (xs ys : List String) : Bool :=
  (xs.zip ys).all fun p => p.1 == p.2

/-- The body of `Entry.filter_duration` of `account_book.py`: substitute
`date.min`/`date.max` for absent bounds, then test `begin <= self.date <= end`. -/
def Entry.filter_duration (e : Entry) (b? e? : Option Date) : Bool :=
  decide (Date.le (b?.getD dateMin) e.date) && decide (Date.le e.date (e?.getD dateMax))

/-- The body of `Entry.filter_groups` of `account_book.py`: `True` for an absent
filter, otherwise `all(a == b for a, b in zip(self.groups, groups))`. -/
def Entry.filter_groups (e : Entry) (groups? : Option (List String)) : Bool :=
  match groups? with
  | none => true
  | some gs => zipAllEq e.groups gs

namespace DataManager

/-- The `Groups` namedtuple of `data_manager.py`: main and sub category. -/
structure Groups where
  main : String
  sub : String
deriving DecidableEq, Repr

/-- The `Entry` namedtuple of `data_manager.py`. -/
structure Entry where
  date : Date
  income : Int
  outgo : Int
  groups : Groups
deriving DecidableEq, Repr

/-- Iterating the `Groups` namedtuple yields `(main, sub)` in order. -/
def Groups.toList (g : Groups) : List String := [g.main, g.sub]

/-- The body of `Entry.is_in_span` of `data_manager.py`:
`span.start <= self.date <= span.stop`. -/
def Entry.is_in_span (e : Entry) (sp : Span) : Bool :=
  decide (Date.le sp.start e.date) && decide (Date.le e.date sp.stop)

/-- The body of `Entry.is_in_groups` of `data_manager.py`: `True` for an absent
filter, otherwise `all(a == b for a, b in zip(self.groups, groups))` where
iterating `self.groups` yields `(main, sub)`. -/
def Entry.is_in_groups (e : Entry) (groups? : Option (List String)) : Bool :=
  match groups? with
  | none => true
  | some gs => zipAllEq e.groups.toList gs

end DataManager

/-- Python `min` step over dates: keep the accumulator unless the next
element is strictly smaller. -/
def dmin (acc x : Date) : Date := if Date.lt x acc then x else acc

/-- Python `max` step over dates: keep the accumulator unless the next
element is strictly larger. -/
def dmax (acc x : Date) : Date := if Date.lt acc x then x else acc

/-- The `AccountBook` of `account_book.py` after successful construction:
the entry list plus the eagerly computed `_min_date` and `_max_date`. -/
structure AccountBook where
  entries : List Entry
  minDate : Date
  maxDate : Date
deriving DecidableEq, Repr

/-- The body of `AccountBook.__init__`: store the entries and eagerly compute
`min(entry.date for entry in self)` and `max(...)`. Python's `min`/`max` raise
`ValueError` on an empty sequence, so construction fails (`none`) when the
entry list is empty. -/
def AccountBook.init (entries : List Entry) : Option AccountBook :=
  match entries.map Entry.date with
  | [] => none
  | d :: ds => some ⟨entries, ds.foldl dmin d, ds.foldl dmax d⟩

/-- The body of `AccountBook.sum_income`: sum of `entry.income` over entries
satisfying `filter_duration` and `filter_groups`. -/
def AccountBook.sum_income (book : AccountBook) (b? e? : Option Date)
    (groups? : Option (List String)) : Int :=
  ((book.entries.filter fun en => en.filter_duration b? e? && en.filter_groups groups?).map
    Entry.income).sum

/-- The body of `AccountBook.sum_outgo`: sum of `entry.outgo` over entries
satisfying `filter_duration` and `filter_groups`. -/
def AccountBook.sum_outgo (book : AccountBook) (b? e? : Option Date)
    (groups? : Option (List String)) : Int :=
  ((book.entries.filter fun en => en.filter_duration b? e? && en.filter_groups groups?).map
    Entry.outgo).sum

/-- The body of `AccountBook.sum_balance`: sum of `entry.income - entry.outgo`
over entries satisfying `filter_duration` and `filter_groups`. -/
def AccountBook.sum_balance (book : AccountBook) (b? e? : Option Date)
    (groups? : Option (List String)) : Int :=
  ((book.entries.filter fun en => en.filter_duration b? e? && en.filter_groups groups?).map
    (fun en => en.income - en.outgo)).sum

/-- The `SummaryData` namedtuple of `account_book.py`. -/
structure SummaryData where
  span : Span
  income : Int
  outgo : Int
  balance : Int
deriving DecidableEq, Repr

/-- The body of `AccountBook.summarize`: default `begin`/`end` to the stored
`_min_date`/`_max_date`, construct the span generator (which checks the range
and the period token), and emit one `SummaryData` per span with the three sums
over `(span.start, span.stop, groups)`. The inner `none` means the span
generator ran out of fuel. -/
def AccountBook.summarize (book : AccountBook) (b? e? : Option Date)
    (groups? : Option (List String)) (period : String) :
    Except DateHandler.DurationError (Option (List SummaryData)) :=
  let b := b?.getD book.minDate
  let e := e?.getD book.maxDate
  match DateHandler.Duration.init b e period with
  | .error err => .error err
  | .ok dur =>
    match DateHandler.span_generators dur.period with
    | none => .error .unknownGranularity
    | some gen =>
      match gen dur.begin_ dur.end_ with
      | none => .ok none
      | some spans =>
        .ok (some (spans.map fun sp =>
          ⟨sp, book.sum_income (some sp.start) (some sp.stop) groups?,
            book.sum_outgo (some sp.start) (some sp.stop) groups?,
            book.sum_balance (some sp.start) (some sp.stop) groups?⟩))

/-- Modelled from the spec: `AccountBook.get_breakdown`, which is missing from
the sources (only its call site `book.get_breakdown(span)` in
`gui/breakdown.py` is present). Per the spec, for entries with
`span.start <= entry.date <= span.stop` (no category filter) it sums
`income - outgo` grouped by the first element of each entry's category
sequence, producing one net amount per distinct top-level label. The mapping
is embedded as an association list with one pair per distinct label. -/
def AccountBook.get_breakdown (book : AccountBook) (sp : Span) : List (String × Int) :=
  let inSpan := book.entries.filter fun en =>
    decide (Date.le sp.start en.date) && decide (Date.le en.date sp.stop)
  let keys := (inSpan.map fun en => en.groups.headD "").dedup
  keys.map fun k =>
    (k, ((inSpan.filter fun en => en.groups.headD "" == k).map
      (fun en => en.income - en.outgo)).sum)

theorem daysInMonth_pos (y m : Nat) : 1 ≤ daysInMonth y m := by
  unfold daysInMonth
  split
  · split <;> omega
  · split <;> omega

theorem daysInMonth_twelve (y : Nat) : daysInMonth y 12 = 31 := by
  norm_num [daysInMonth]

theorem daysUpTo_twelve (y : Nat) : daysUpTo y 12 = if isLeapYear y then 366 else 365 := by
  have e : daysUpTo y 12 =
      0 + daysInMonth y 1 + daysInMonth y 2 + daysInMonth y 3 + daysInMonth y 4 +
      daysInMonth y 5 + daysInMonth y 6 + daysInMonth y 7 + daysInMonth y 8 +
      daysInMonth y 9 + daysInMonth y 10 + daysInMonth y 11 + daysInMonth y 12 := rfl
  rw [e]
  cases h : isLeapYear y <;> norm_num [daysInMonth, h]

theorem daysBeforeMonth_one (y : Nat) : daysBeforeMonth y 1 = 0 := rfl

theorem daysBeforeMonth_succ (y m : Nat) (hm : 1 ≤ m) :
    daysBeforeMonth y (m + 1) = daysBeforeMonth y m + daysInMonth y m := by
  unfold daysBeforeMonth
  have h1 : m + 1 - 1 = (m - 1) + 1 := by omega
  rw [h1]
  show daysUpTo y (m - 1) + daysInMonth y ((m - 1) + 1) = daysUpTo y (m - 1) + daysInMonth y m
  have h2 : (m - 1) + 1 = m := by omega
  rw [h2]

theorem daysUpTo_mono (y : Nat) {m1 m2 : Nat} (h : m1 ≤ m2) :
    daysUpTo y m1 ≤ daysUpTo y m2 := by
  induction m2 with
  | zero =>
    have : m1 = 0 := by omega
    simp [this]
  | succ n ih =>
    rcases Nat.lt_or_ge m1 (n + 1) with h' | h'
    · have := ih (by omega)
      have hd : daysUpTo y (n + 1) = daysUpTo y n + daysInMonth y (n + 1) := rfl
      omega
    · have : m1 = n + 1 := by omega
      simp [this]

set_option maxHeartbeats 1600000 in
theorem daysBeforeYear_succ (y : Nat) (hy : 1 ≤ y) :
    daysBeforeYear (y + 1) = daysBeforeYear y + (if isLeapYear y then 366 else 365) := by
  unfold daysBeforeYear isLeapYear
  split
  next h =>
    simp only [Bool.and_eq_true, Bool.or_eq_true, beq_iff_eq, bne_iff_ne, ne_eq] at h
    omega
  next h =>
    simp only [Bool.and_eq_true, Bool.or_eq_true, beq_iff_eq, bne_iff_ne, ne_eq,
      not_and, not_or, Decidable.not_not] at h
    omega

theorem daysBeforeYear_le_succ (y : Nat) : daysBeforeYear y ≤ daysBeforeYear (y + 1) := by
  rcases Nat.eq_zero_or_pos y with h | h
  · subst h
    simp [daysBeforeYear]
  · rw [daysBeforeYear_succ y h]
    split <;> omega

theorem daysBeforeYear_mono {y1 y2 : Nat} (h : y1 ≤ y2) :
    daysBeforeYear y1 ≤ daysBeforeYear y2 := by
  induction y2 with
  | zero =>
    have : y1 = 0 := by omega
    simp [this]
  | succ n ih =>
    rcases Nat.lt_or_ge y1 (n + 1) with h' | h'
    · exact Nat.le_trans (ih (by omega)) (daysBeforeYear_le_succ n)
    · have : y1 = n + 1 := by omega
      simp [this]

theorem Date.le_refl (a : Date) : Date.le a a := by
  simp [Date.le]

theorem Date.le_trans {a b c : Date} (h1 : Date.le a b) (h2 : Date.le b c) : Date.le a c := by
  simp only [Date.le] at h1 h2 ⊢
  omega

theorem Date.le_total (a b : Date) : Date.le a b ∨ Date.le b a := by
  simp only [Date.le]
  omega

theorem Date.not_le {a b : Date} : ¬ Date.le a b ↔ Date.lt b a := by
  simp only [Date.le, Date.lt]
  omega

theorem Date.not_lt {a b : Date} : ¬ Date.lt a b ↔ Date.le b a := by
  simp only [Date.le, Date.lt]
  omega

theorem Date.le_iff_lt_or_eq {a b : Date} : Date.le a b ↔ Date.lt a b ∨ a = b := by
  obtain ⟨y1, m1, d1⟩ := a
  obtain ⟨y2, m2, d2⟩ := b
  simp only [Date.le, Date.lt, Date.mk.injEq]
  omega

theorem toOrdinal_ge_one (d : Date) (h : d.Valid) : 1 ≤ toOrdinal d := by
  unfold toOrdinal
  have := h.2.2.2.1
  omega

theorem daysBeforeMonth_add_le (y m d : Nat) (hm1 : 1 ≤ m) (hm2 : m ≤ 12)
    (hd : d ≤ daysInMonth y m) : daysBeforeMonth y m + d ≤ daysUpTo y 12 := by
  have h2 := daysBeforeMonth_succ y m hm1
  have h3 : daysBeforeMonth y (m + 1) = daysUpTo y m := by
    unfold daysBeforeMonth
    norm_num
  have h4 := daysUpTo_mono y hm2
  omega

theorem Date.valid_mk (y m d : Nat) (h1 : 1 ≤ y) (h2 : 1 ≤ m) (h3 : m ≤ 12) (h4 : 1 ≤ d)
    (h5 : d ≤ daysInMonth y m) : (Date.mk y m d).Valid :=
  ⟨h1, h2, h3, h4, h5⟩

theorem toOrdinal_mk (y m d : Nat) :
    toOrdinal (Date.mk y m d) = daysBeforeYear y + daysBeforeMonth y m + d := rfl

theorem toOrdinal_succ (d : Date) (h : d.Valid) :
    toOrdinal (Date.succ d) = toOrdinal d + 1 := by
  obtain ⟨hy, hm1, hm2, hd1, hd2⟩ := h
  have hR : toOrdinal d = daysBeforeYear d.year + daysBeforeMonth d.year d.month + d.day := rfl
  unfold Date.succ
  split
  next hlt =>
    rw [toOrdinal_mk, hR]
    omega
  next hge =>
    have hday : d.day = daysInMonth d.year d.month := by omega
    split
    next h12 =>
      have hstep := daysBeforeMonth_succ d.year d.month hm1
      rw [toOrdinal_mk, hR]
      omega
    next h12 =>
      have hmeq : d.month = 12 := by omega
      have hby := daysBeforeYear_succ d.year hy
      have hup := daysUpTo_twelve d.year
      rw [← hup] at hby
      have hdm12 : daysInMonth d.year 12 = 31 := daysInMonth_twelve d.year
      have hbm : daysBeforeMonth d.year 12 = daysUpTo d.year 11 := rfl
      have hup2 : daysUpTo d.year 12 = daysUpTo d.year 11 + daysInMonth d.year 12 := rfl
      rw [hmeq, hdm12] at hday
      rw [toOrdinal_mk, hR, hmeq, daysBeforeMonth_one]
      omega

theorem Date.succ_valid (d : Date) (h : d.Valid) : (Date.succ d).Valid := by
  obtain ⟨hy, hm1, hm2, hd1, hd2⟩ := h
  unfold Date.succ
  split
  next hlt =>
    exact Date.valid_mk _ _ _ hy hm1 hm2 (by omega) (by omega)
  next hge =>
    split
    next h12 =>
      exact Date.valid_mk _ _ _ hy (by omega) (by omega) (Nat.le_refl 1) (daysInMonth_pos _ _)
    next h12 =>
      exact Date.valid_mk _ _ _ (by omega) (Nat.le_refl 1) (by omega) (Nat.le_refl 1)
        (daysInMonth_pos _ _)

theorem addDays_valid_ord (d : Date) (h : d.Valid) (n : Nat) :
    (Date.addDays d n).Valid ∧ toOrdinal (Date.addDays d n) = toOrdinal d + n := by
  induction n with
  | zero => exact ⟨h, rfl⟩
  | succ k ih =>
    refine ⟨Date.succ_valid _ ih.1, ?_⟩
    show toOrdinal (Date.succ (Date.addDays d k)) = _
    rw [toOrdinal_succ _ ih.1, ih.2]
    omega

theorem pred_valid_ord (d : Date) (h : d.Valid) (h2 : 2 ≤ toOrdinal d) :
    (Date.pred d).Valid ∧ toOrdinal (Date.pred d) + 1 = toOrdinal d := by
  obtain ⟨hy, hm1, hm2, hd1, hd2⟩ := h
  have hR : toOrdinal d = daysBeforeYear d.year + daysBeforeMonth d.year d.month + d.day := rfl
  unfold Date.pred
  split
  next hd =>
    refine ⟨Date.valid_mk _ _ _ hy hm1 hm2 (by omega) (by omega), ?_⟩
    rw [toOrdinal_mk, hR]
    omega
  next hd =>
    have hday : d.day = 1 := by omega
    split
    next hm =>
      have hstep := daysBeforeMonth_succ d.year (d.month - 1) (by omega)
      have hmm : d.month - 1 + 1 = d.month := by omega
      rw [hmm] at hstep
      refine ⟨Date.valid_mk _ _ _ hy (by omega) (by omega) (daysInMonth_pos _ _)
        (Nat.le_refl _), ?_⟩
      rw [toOrdinal_mk, hR]
      omega
    next hm =>
      have hmon : d.month = 1 := by omega
      have hy2 : 2 ≤ d.year := by
        by_contra hcon
        have hy1 : d.year = 1 := by omega
        have hone : toOrdinal d = 1 := by
          rw [hR, hy1, hmon, daysBeforeMonth_one, hday]
          simp [daysBeforeYear]
        omega
      have hby := daysBeforeYear_succ (d.year - 1) (by omega)
      have hyy : d.year - 1 + 1 = d.year := by omega
      rw [hyy] at hby
      have hup := daysUpTo_twelve (d.year - 1)
      rw [← hup] at hby
      have hdm12 : daysInMonth (d.year - 1) 12 = 31 := daysInMonth_twelve _
      have hbm : daysBeforeMonth (d.year - 1) 12 = daysUpTo (d.year - 1) 11 := rfl
      have hup2 : daysUpTo (d.year - 1) 12 =
          daysUpTo (d.year - 1) 11 + daysInMonth (d.year - 1) 12 := rfl
      refine ⟨Date.valid_mk _ _ _ (by omega) (by omega) (by omega) (by omega)
        (hdm12 ▸ Nat.le_refl 31), ?_⟩
      rw [toOrdinal_mk, hR, hmon, daysBeforeMonth_one, hday]
      omega

theorem subDays_valid_ord (d : Date) (h : d.Valid) (n : Nat) (hn : n + 1 ≤ toOrdinal d) :
    (Date.subDays d n).Valid ∧ toOrdinal (Date.subDays d n) + n = toOrdinal d := by
  induction n with
  | zero => exact ⟨h, rfl⟩
  | succ k ih =>
    obtain ⟨hv, ho⟩ := ih (by omega)
    have hp := pred_valid_ord (Date.subDays d k) hv (by omega)
    refine ⟨hp.1, ?_⟩
    show toOrdinal (Date.pred (Date.subDays d k)) + (k + 1) = toOrdinal d
    omega

theorem toOrdinal_lt_of_lt (a b : Date) (ha : a.Valid) (hb : b.Valid) (h : Date.lt a b) :
    toOrdinal a < toOrdinal b := by
  obtain ⟨y1, m1, d1⟩ := a
  obtain ⟨y2, m2, d2⟩ := b
  obtain ⟨hay, ham1, ham2, had1, had2⟩ := ha
  obtain ⟨hby, hbm1, hbm2, hbd1, hbd2⟩ := hb
  simp only at hay ham1 ham2 had1 had2 hby hbm1 hbm2 hbd1 hbd2
  simp only [Date.lt] at h
  simp only [toOrdinal]
  rcases h with hY | ⟨hYe, hM | ⟨hMe, hD⟩⟩
  · have h1 : daysBeforeMonth y1 m1 + d1 ≤ daysUpTo y1 12 :=
      daysBeforeMonth_add_le y1 m1 d1 ham1 ham2 had2
    have h2 : daysBeforeYear y1 + daysUpTo y1 12 ≤ daysBeforeYear (y1 + 1) := by
      rw [daysBeforeYear_succ y1 hay, daysUpTo_twelve]
    have h3 : daysBeforeYear (y1 + 1) ≤ daysBeforeYear y2 := daysBeforeYear_mono (by omega)
    omega
  · subst hYe
    have h1 : daysBeforeMonth y1 m1 + d1 ≤ daysBeforeMonth y1 (m1 + 1) := by
      rw [daysBeforeMonth_succ y1 m1 ham1]
      omega
    have h2 : daysBeforeMonth y1 (m1 + 1) ≤ daysBeforeMonth y1 m2 := by
      unfold daysBeforeMonth
      exact daysUpTo_mono y1 (by omega)
    omega
  · subst hYe
    subst hMe
    omega

theorem toOrdinal_le_iff (a b : Date) (ha : a.Valid) (hb : b.Valid) :
    toOrdinal a ≤ toOrdinal b ↔ Date.le a b := by
  constructor
  · intro h
    by_contra hc
    rw [Date.not_le] at hc
    have := toOrdinal_lt_of_lt b a hb ha hc
    omega
  · intro h
    rcases Date.le_iff_lt_or_eq.1 h with h' | heq
    · exact Nat.le_of_lt (toOrdinal_lt_of_lt a b ha hb h')
    · rw [heq]

theorem toOrdinal_lt_iff (a b : Date) (ha : a.Valid) (hb : b.Valid) :
    toOrdinal a < toOrdinal b ↔ Date.lt a b := by
  constructor
  · intro h
    by_contra hc
    rw [Date.not_lt] at hc
    have := (toOrdinal_le_iff b a hb ha).2 hc
    omega
  · exact toOrdinal_lt_of_lt a b ha hb

theorem weekday_lt_ord (d : Date) (h : d.Valid) : Date.weekday d + 1 ≤ toOrdinal d := by
  unfold Date.weekday
  have := toOrdinal_ge_one d h
  omega

theorem weekday_subDays_monday (d : Date) (h : d.Valid) :
    Date.weekday (Date.subDays d (Date.weekday d)) = 0 := by
  have hb := weekday_lt_ord d h
  have hs := subDays_valid_ord d h (Date.weekday d) hb
  have ho := hs.2
  unfold Date.weekday at ho hb ⊢
  omega

theorem subDays_weekday_le (d : Date) (h : d.Valid) :
    Date.le (Date.subDays d (Date.weekday d)) d ∧
      toOrdinal d ≤ toOrdinal (Date.subDays d (Date.weekday d)) + 6 ∧
      (Date.subDays d (Date.weekday d)).Valid := by
  have hb := weekday_lt_ord d h
  have hs := subDays_valid_ord d h (Date.weekday d) hb
  refine ⟨(toOrdinal_le_iff _ _ hs.1 h).1 (by omega), ?_, hs.1⟩
  have hw : Date.weekday d ≤ 6 := by
    unfold Date.weekday
    omega
  omega

theorem spanLoop_succ_eq (stopFn : Date → Date) (e : Date) (fuel : Nat) (s : Date) :
    spanLoop stopFn e (fuel + 1) s =
      if Date.le e (stopFn s) then some [⟨s, stopFn s⟩]
      else (spanLoop stopFn e fuel (Date.succ (stopFn s))).map
        (fun rest => ⟨s, stopFn s⟩ :: rest) := rfl

theorem spanLoop_spec (stopFn : Date → Date) (e : Date)
    (hV : ∀ s, s.Valid → (stopFn s).Valid) :
    ∀ fuel start spans, start.Valid → spanLoop stopFn e fuel start = some spans →
      spans.head? = some ⟨start, stopFn start⟩ ∧
      (∀ sp ∈ spans, sp.start.Valid ∧ sp.stop = stopFn sp.start) ∧
      List.Chain' (fun a c => c.start = Date.succ a.stop) spans ∧
      (∃ last, spans.getLast? = some last ∧ Date.le e last.stop) ∧
      (∀ sp ∈ spans.dropLast, ¬ Date.le e sp.stop) := by
  intro fuel
  induction fuel with
  | zero =>
    intro start spans hs heq
    simp [spanLoop] at heq
  | succ fuel ih =>
    intro start spans hs heq
    rw [spanLoop_succ_eq] at heq
    split at heq
    next hstop =>
      obtain rfl : [(⟨start, stopFn start⟩ : Span)] = spans := by
        injection heq
      refine ⟨rfl, ?_, ?_, ?_, ?_⟩
      · intro sp hsp
        rw [List.mem_singleton] at hsp
        subst hsp
        exact ⟨hs, rfl⟩
      · simp
      · exact ⟨⟨start, stopFn start⟩, rfl, hstop⟩
      · intro sp hsp
        simp at hsp
    next hstop =>
      obtain ⟨rest, hrest, hcons⟩ := Option.map_eq_some'.1 heq
      subst hcons
      have hsv : (Date.succ (stopFn start)).Valid := Date.succ_valid _ (hV start hs)
      obtain ⟨ihead, imem, ichain, ⟨last, ilast, ile⟩, idrop⟩ := ih _ rest hsv hrest
      have hrne : rest ≠ [] := by
        intro hnil
        rw [hnil] at ihead
        simp at ihead
      refine ⟨rfl, ?_, ?_, ?_, ?_⟩
      · intro sp hsp
        rcases List.mem_cons.1 hsp with rfl | hmem
        · exact ⟨hs, rfl⟩
        · exact imem sp hmem
      · rw [List.chain'_cons']
        refine ⟨?_, ichain⟩
        intro b hb
        rw [ihead] at hb
        simp at hb
        subst hb
        rfl
      · refine ⟨last, ?_, ile⟩
        rcases rest with _ | ⟨r, rs⟩
        · exact absurd rfl hrne
        · rw [List.getLast?_cons_cons]
          exact ilast
      · intro sp hsp
        rcases rest with _ | ⟨r, rs⟩
        · exact absurd rfl hrne
        · rw [List.dropLast_cons₂] at hsp
          rcases List.mem_cons.1 hsp with rfl | hmem
          · exact hstop
          · exact idrop sp hmem

theorem spanLoop_isSome (stopFn : Date → Date) (e : Date)
    (hV : ∀ s, s.Valid → (stopFn s).Valid)
    (hM : ∀ s, s.Valid → toOrdinal s ≤ toOrdinal (stopFn s))
    (he : e.Valid) :
    ∀ fuel start, start.Valid → toOrdinal start ≤ toOrdinal e →
      toOrdinal e < toOrdinal start + fuel →
      (spanLoop stopFn e fuel start).isSome := by
  intro fuel
  induction fuel with
  | zero =>
    intro start hs hle hlt
    omega
  | succ fuel ih =>
    intro start hs hle hlt
    rw [spanLoop_succ_eq]
    split
    · simp
    next hstop =>
      have hv2 := hV start hs
      have hlt2 : Date.lt (stopFn start) e := Date.not_le.1 hstop
      have ho : toOrdinal (stopFn start) < toOrdinal e := toOrdinal_lt_of_lt _ _ hv2 he hlt2
      have hsucc := toOrdinal_succ (stopFn start) hv2
      have hsv : (Date.succ (stopFn start)).Valid := Date.succ_valid _ hv2
      have hm := hM start hs
      have hrec := ih (Date.succ (stopFn start)) hsv (by omega) (by omega)
      rcases Option.isSome_iff_exists.1 hrec with ⟨v, hv⟩
      rw [hv]
      rfl

theorem date_le_year_end (s : Date) (h : s.Valid) : Date.le s ⟨s.year, 12, 31⟩ := by
  obtain ⟨hy, hm1, hm2, hd1, hd2⟩ := h
  rcases Nat.lt_or_ge s.month 12 with hm | hm
  · exact Or.inr ⟨rfl, Or.inl hm⟩
  · have hmeq : s.month = 12 := by omega
    have h31 : s.day ≤ 31 := by
      rw [hmeq, daysInMonth_twelve] at hd2
      exact hd2
    exact Or.inr ⟨rfl, Or.inr ⟨hmeq, h31⟩⟩

theorem year_end_valid (s : Date) (h : s.Valid) : (Date.mk s.year 12 31).Valid :=
  Date.valid_mk _ _ _ h.1 (by omega) (by omega) (by omega)
    (daysInMonth_twelve s.year ▸ Nat.le_refl 31)

theorem first_of_year_le (b : Date) (h : b.Valid) : Date.le ⟨b.year, 1, 1⟩ b := by
  obtain ⟨hy, hm1, hm2, hd1, hd2⟩ := h
  rcases Nat.lt_or_ge 1 b.month with hm | hm
  · exact Or.inr ⟨rfl, Or.inl hm⟩
  · have hmeq : b.month = 1 := by omega
    exact Or.inr ⟨rfl, Or.inr ⟨hmeq.symm, hd1⟩⟩

theorem first_of_year_valid (b : Date) (h : b.Valid) : (Date.mk b.year 1 1).Valid :=
  Date.valid_mk _ _ _ h.1 (by omega) (by omega) (by omega) (daysInMonth_pos _ _)

theorem first_of_month_le (b : Date) (h : b.Valid) : Date.le ⟨b.year, b.month, 1⟩ b := by
  obtain ⟨hy, hm1, hm2, hd1, hd2⟩ := h
  exact Or.inr ⟨rfl, Or.inr ⟨rfl, hd1⟩⟩

theorem first_of_month_valid (b : Date) (h : b.Valid) : (Date.mk b.year b.month 1).Valid :=
  Date.valid_mk _ _ _ h.1 h.2.1 h.2.2.1 (by omega) (daysInMonth_pos _ _)

theorem addDays_any_valid (s : Date) (n : Nat) (hs : s.Valid) : (Date.addDays s n).Valid :=
  (addDays_valid_ord s hs n).1

theorem addDays_ord_ge (s : Date) (n : Nat) (hs : s.Valid) :
    toOrdinal s ≤ toOrdinal (Date.addDays s n) := by
  rw [(addDays_valid_ord s hs n).2]
  omega

theorem addDays_within (d : Date) (n : Nat)
    (hn : d.day + n ≤ daysInMonth d.year d.month) :
    Date.addDays d n = ⟨d.year, d.month, d.day + n⟩ := by
  induction n with
  | zero => rfl
  | succ k ih =>
    rw [show Date.addDays d (k + 1) = Date.succ (Date.addDays d k) from rfl, ih (by omega)]
    unfold Date.succ
    split
    next hlt => rfl
    next hge =>
      exfalso
      apply hge
      show d.day + k < daysInMonth d.year d.month
      omega

theorem succ_month_end (y m : Nat) (hm1 : 1 ≤ m) (hm2 : m ≤ 12) :
    Date.succ ⟨y, m, daysInMonth y m⟩ = ⟨y + m / 12, m % 12 + 1, 1⟩ := by
  unfold Date.succ
  rw [if_neg (show ¬ daysInMonth y m < daysInMonth y m by omega)]
  split
  next h12 =>
    have h12' : m < 12 := h12
    simp only [Date.mk.injEq]
    exact ⟨by omega, by omega, trivial⟩
  next h12 =>
    have h12' : ¬ m < 12 := h12
    simp only [Date.mk.injEq]
    exact ⟨by omega, by omega, trivial⟩

theorem generator_tiling (stopFn : Date → Date) (start0 b e : Date)
    (hV : ∀ s, s.Valid → (stopFn s).Valid)
    (h0 : start0.Valid) (h0le : Date.le start0 b) :
    ∀ spans, spanLoop stopFn e (toOrdinal e) start0 = some spans →
      List.Chain' (fun a c => c.start = Date.succ a.stop) spans ∧
      (∀ sp, spans.head? = some sp → Date.le sp.start b) ∧
      (∀ sp, spans.getLast? = some sp → Date.le e sp.stop) := by
  intro spans heq
  obtain ⟨ihead, imem, ichain, ⟨last, ilast, ile⟩, idrop⟩ :=
    spanLoop_spec stopFn e hV _ start0 spans h0 heq
  refine ⟨ichain, ?_, ?_⟩
  · intro sp hsp
    rw [ihead] at hsp
    injection hsp with hsp
    rw [← hsp]
    exact h0le
  · intro sp hsp
    rw [ilast] at hsp
    injection hsp with hsp
    rw [← hsp]
    exact ile

theorem generator_terminates (stopFn : Date → Date) (start0 e : Date)
    (hV : ∀ s, s.Valid → (stopFn s).Valid)
    (hM : ∀ s, s.Valid → toOrdinal s ≤ toOrdinal (stopFn s))
    (he : e.Valid) (h0 : start0.Valid) (h0le : toOrdinal start0 ≤ toOrdinal e) :
    ∃ spans, spanLoop stopFn e (toOrdinal e) start0 = some spans ∧ spans ≠ [] ∧
      (∀ sp ∈ spans.dropLast, Date.lt sp.stop e) ∧
      List.Chain' (fun a c => toOrdinal a.stop < toOrdinal c.stop) spans := by
  have hpos : 1 ≤ toOrdinal start0 := toOrdinal_ge_one _ h0
  have hsome := spanLoop_isSome stopFn e hV hM he (toOrdinal e) start0 h0 h0le (by omega)
  obtain ⟨spans, heq⟩ := Option.isSome_iff_exists.1 hsome
  obtain ⟨ihead, imem, ichain, _, idrop⟩ := spanLoop_spec stopFn e hV _ _ _ h0 heq
  refine ⟨spans, heq, ?_, ?_, ?_⟩
  · intro hnil
    rw [hnil] at ihead
    simp at ihead
  · intro sp hsp
    exact Date.not_le.1 (idrop sp hsp)
  · rw [List.chain'_iff_get] at ichain ⊢
    intro i hi
    have h1 := ichain i hi
    have ha := imem _ (List.get_mem spans i (by omega))
    have hc := imem _ (List.get_mem spans (i + 1) (by omega))
    have hstopv : (spans.get ⟨i, by omega⟩).stop.Valid := by
      rw [ha.2]
      exact hV _ ha.1
    have h2 : toOrdinal (spans.get ⟨i + 1, by omega⟩).start =
        toOrdinal (spans.get ⟨i, by omega⟩).stop + 1 := by
      rw [h1, toOrdinal_succ _ hstopv]
    have h3 : toOrdinal (spans.get ⟨i + 1, by omega⟩).start ≤
        toOrdinal (spans.get ⟨i + 1, by omega⟩).stop := by
      rw [hc.2]
      exact hM _ hc.1
    omega

theorem spanLoop_inv (stopFn : Date → Date) (e : Date) (P : Date → Prop)
    (hV : ∀ s, s.Valid → (stopFn s).Valid)
    (hstep : ∀ s, s.Valid → P s → P (Date.succ (stopFn s))) :
    ∀ fuel start spans, start.Valid → P start →
      spanLoop stopFn e fuel start = some spans → ∀ sp ∈ spans, P sp.start := by
  intro fuel
  induction fuel with
  | zero =>
    intro start spans hs hp heq
    simp [spanLoop] at heq
  | succ fuel ih =>
    intro start spans hs hp heq
    rw [spanLoop_succ_eq] at heq
    split at heq
    next hstop =>
      obtain rfl : [(⟨start, stopFn start⟩ : Span)] = spans := by
        injection heq
      intro sp hsp
      rw [List.mem_singleton] at hsp
      subst hsp
      exact hp
    next hstop =>
      obtain ⟨rest, hrest, hcons⟩ := Option.map_eq_some'.1 heq
      subst hcons
      have hsv : (Date.succ (stopFn start)).Valid := Date.succ_valid _ (hV start hs)
      intro sp hsp
      rcases List.mem_cons.1 hsp with rfl | hmem
      · exact hp
      · exact ih _ rest hsv (hstep start hs hp) hrest sp hmem

theorem span_generators_cases (period : String) (g : Date → Date → Option (List Span))
    (h : DateHandler.span_generators period = some g ∨
      SourceDateHandler.span_generators period = some g) :
    g = DateHandler.generate_year_span ∨ g = DateHandler.generate_month_span ∨
    g = DateHandler.generate_week_span ∨ g = DateHandler.generate_day_span ∨
    g = SourceDateHandler.generate_year_span ∨ g = SourceDateHandler.generate_month_span ∨
    g = SourceDateHandler.generate_week_span ∨ g = SourceDateHandler.generate_day_span := by
  rcases h with h | h
  · unfold DateHandler.span_generators at h
    split at h
    · exact Or.inl (Option.some.inj h).symm
    split at h
    · exact Or.inr (Or.inl (Option.some.inj h).symm)
    split at h
    · exact Or.inr (Or.inr (Or.inl (Option.some.inj h).symm))
    split at h
    · exact Or.inr (Or.inr (Or.inr (Or.inl (Option.some.inj h).symm)))
    · simp at h
  · unfold SourceDateHandler.span_generators at h
    split at h
    · exact Or.inr (Or.inr (Or.inr (Or.inr (Or.inl (Option.some.inj h).symm))))
    split at h
    · exact Or.inr (Or.inr (Or.inr (Or.inr (Or.inr (Or.inl (Option.some.inj h).symm)))))
    split at h
    · exact Or.inr (Or.inr (Or.inr (Or.inr (Or.inr (Or.inr (Or.inl (Option.some.inj h).symm))))))
    split at h
    · exact Or.inr (Or.inr (Or.inr (Or.inr (Or.inr (Or.inr (Or.inr (Option.some.inj h).symm))))))
    · simp at h

theorem year_end_ord_ge (s : Date) (hs : s.Valid) :
    toOrdinal s ≤ toOrdinal ⟨s.year, 12, 31⟩ :=
  (toOrdinal_le_iff s _ hs (year_end_valid s hs)).2 (date_le_year_end s hs)

/-- Claim C4: for every `begin <= end` and every recognized granularity (in either
version of `date_handler.py`), the generated span sequence tiles the range with no
gaps and no overlaps: consecutive spans satisfy `stop + 1 day == next start`, the
first span's start is `<= begin`, and the last span's stop is `>= end`. -/
theorem span_generation_tiling (period : String) (g : Date → Date → Option (List Span))
    (b e : Date) (hb : b.Valid) (_he : e.Valid) (_hbe : Date.le b e)
    (hreg : DateHandler.span_generators period = some g ∨
      SourceDateHandler.span_generators period = some g)
    (spans : List Span) (heq : g b e = some spans) :
    List.Chain' (fun a c => c.start = Date.succ a.stop) spans ∧
    (∀ sp, spans.head? = some sp → Date.le sp.start b) ∧
    (∀ sp, spans.getLast? = some sp → Date.le e sp.stop) := by
  rcases span_generators_cases period g hreg with rfl | rfl | rfl | rfl | rfl | rfl | rfl | rfl
  · unfold DateHandler.generate_year_span at heq
    exact generator_tiling _ _ b e year_end_valid (first_of_year_valid b hb)
      (first_of_year_le b hb) spans heq
  · unfold DateHandler.generate_month_span at heq
    exact generator_tiling _ _ b e (fun s hs => addDays_any_valid s _ hs)
      (first_of_month_valid b hb) (first_of_month_le b hb) spans heq
  · unfold DateHandler.generate_week_span at heq
    exact generator_tiling _ _ b e (fun s hs => addDays_any_valid s _ hs)
      (subDays_weekday_le b hb).2.2 (subDays_weekday_le b hb).1 spans heq
  · unfold DateHandler.generate_day_span at heq
    exact generator_tiling _ _ b e (fun s hs => hs) hb (Date.le_refl b) spans heq
  · unfold SourceDateHandler.generate_year_span at heq
    exact generator_tiling _ _ b e (fun s hs => addDays_any_valid s _ hs) hb
      (Date.le_refl b) spans heq
  · unfold SourceDateHandler.generate_month_span at heq
    exact generator_tiling _ _ b e (fun s hs => addDays_any_valid s _ hs) hb
      (Date.le_refl b) spans heq
  · unfold SourceDateHandler.generate_week_span at heq
    exact generator_tiling _ _ b e (fun s hs => addDays_any_valid s _ hs) hb
      (Date.le_refl b) spans heq
  · unfold SourceDateHandler.generate_day_span at heq
    exact generator_tiling _ _ b e (fun s hs => hs) hb (Date.le_refl b) spans heq

theorem span_generation_tiling_witness :
    List.Chain' (fun a c => c.start = Date.succ a.stop)
      [Span.mk ⟨2024, 1, 1⟩ ⟨2024, 1, 1⟩, Span.mk ⟨2024, 1, 2⟩ ⟨2024, 1, 2⟩] ∧
    (∀ sp, [Span.mk ⟨2024, 1, 1⟩ ⟨2024, 1, 1⟩, Span.mk ⟨2024, 1, 2⟩ ⟨2024, 1, 2⟩].head? =
      some sp → Date.le sp.start ⟨2024, 1, 1⟩) ∧
    (∀ sp, [Span.mk ⟨2024, 1, 1⟩ ⟨2024, 1, 1⟩, Span.mk ⟨2024, 1, 2⟩ ⟨2024, 1, 2⟩].getLast? =
      some sp → Date.le ⟨2024, 1, 2⟩ sp.stop) :=
  span_generation_tiling "day" DateHandler.generate_day_span ⟨2024, 1, 1⟩ ⟨2024, 1, 2⟩
    (by decide) (by decide) (by decide) (Or.inl rfl)
    [Span.mk ⟨2024, 1, 1⟩ ⟨2024, 1, 1⟩, Span.mk ⟨2024, 1, 2⟩ ⟨2024, 1, 2⟩] (by decide)

/-- Claim C6: for every `begin <= end` and every recognized granularity (in either
version of `date_handler.py`), span generation terminates: it emits at least one
span within the `toOrdinal end` iteration bound, all spans except the last have
stop strictly before `end`, and the stops are strictly increasing (which is what
bounds the loop). -/
theorem span_generation_terminates (period : String) (g : Date → Date → Option (List Span))
    (b e : Date) (hb : b.Valid) (he : e.Valid) (hbe : Date.le b e)
    (hreg : DateHandler.span_generators period = some g ∨
      SourceDateHandler.span_generators period = some g) :
    ∃ spans, g b e = some spans ∧ spans ≠ [] ∧
      (∀ sp ∈ spans.dropLast, Date.lt sp.stop e) ∧
      List.Chain' (fun a c => toOrdinal a.stop < toOrdinal c.stop) spans := by
  have hbeo : toOrdinal b ≤ toOrdinal e := (toOrdinal_le_iff b e hb he).2 hbe
  rcases span_generators_cases period g hreg with rfl | rfl | rfl | rfl | rfl | rfl | rfl | rfl
  · unfold DateHandler.generate_year_span
    have h0 := first_of_year_valid b hb
    have h0le : toOrdinal (Date.mk b.year 1 1) ≤ toOrdinal e :=
      Nat.le_trans ((toOrdinal_le_iff _ b h0 hb).2 (first_of_year_le b hb)) hbeo
    exact generator_terminates _ _ e year_end_valid year_end_ord_ge he h0 h0le
  · unfold DateHandler.generate_month_span
    have h0 := first_of_month_valid b hb
    have h0le : toOrdinal (Date.mk b.year b.month 1) ≤ toOrdinal e :=
      Nat.le_trans ((toOrdinal_le_iff _ b h0 hb).2 (first_of_month_le b hb)) hbeo
    exact generator_terminates _ _ e (fun s hs => addDays_any_valid s _ hs)
      (fun s hs => addDays_ord_ge s _ hs) he h0 h0le
  · unfold DateHandler.generate_week_span
    obtain ⟨hle0, _, h0⟩ := subDays_weekday_le b hb
    have h0le : toOrdinal (Date.subDays b (Date.weekday b)) ≤ toOrdinal e :=
      Nat.le_trans ((toOrdinal_le_iff _ b h0 hb).2 hle0) hbeo
    exact generator_terminates _ _ e (fun s hs => addDays_any_valid s _ hs)
      (fun s hs => addDays_ord_ge s _ hs) he h0 h0le
  · unfold DateHandler.generate_day_span
    exact generator_terminates _ _ e (fun s hs => hs) (fun s hs => Nat.le_refl _) he hb hbeo
  · unfold SourceDateHandler.generate_year_span
    exact generator_terminates _ _ e (fun s hs => addDays_any_valid s _ hs)
      (fun s hs => addDays_ord_ge s _ hs) he hb hbeo
  · unfold SourceDateHandler.generate_month_span
    exact generator_terminates _ _ e (fun s hs => addDays_any_valid s _ hs)
      (fun s hs => addDays_ord_ge s _ hs) he hb hbeo
  · unfold SourceDateHandler.generate_week_span
    exact generator_terminates _ _ e (fun s hs => addDays_any_valid s _ hs)
      (fun s hs => addDays_ord_ge s _ hs) he hb hbeo
  · unfold SourceDateHandler.generate_day_span
    exact generator_terminates _ _ e (fun s hs => hs) (fun s hs => Nat.le_refl _) he hb hbeo

theorem span_generation_terminates_witness :
    ∃ spans, DateHandler.generate_month_span ⟨2024, 2, 15⟩ ⟨2024, 2, 15⟩ = some spans ∧
      spans ≠ [] ∧
      (∀ sp ∈ spans.dropLast, Date.lt sp.stop ⟨2024, 2, 15⟩) ∧
      List.Chain' (fun a c => toOrdinal a.stop < toOrdinal c.stop) spans :=
  span_generation_terminates "month" DateHandler.generate_month_span ⟨2024, 2, 15⟩
    ⟨2024, 2, 15⟩ (by decide) (by decide) (by decide) (Or.inl rfl)

theorem month_stop_eq (s : Date) (h1 : s.day = 1) :
    Date.addDays s (daysInMonth s.year s.month - 1) =
      ⟨s.year, s.month, daysInMonth s.year s.month⟩ := by
  have hpos := daysInMonth_pos s.year s.month
  rw [addDays_within s (daysInMonth s.year s.month - 1) (by omega)]
  simp only [Date.mk.injEq]
  exact ⟨trivial, trivial, by omega⟩

theorem month_succ_stop (s : Date) (hs : s.Valid) (h1 : s.day = 1) :
    Date.succ (Date.addDays s (daysInMonth s.year s.month - 1)) =
      ⟨s.year + s.month / 12, s.month % 12 + 1, 1⟩ := by
  rw [month_stop_eq s h1]
  exact succ_month_end s.year s.month hs.2.1 hs.2.2.1

theorem month_chain (e : Date) :
    ∀ fuel start spans, start.Valid → start.day = 1 →
      spanLoop (fun s => Date.addDays s (daysInMonth s.year s.month - 1)) e fuel start =
        some spans →
      (∀ sp ∈ spans, sp.start.day = 1 ∧
        sp.stop = ⟨sp.start.year, sp.start.month, daysInMonth sp.start.year sp.start.month⟩) ∧
      List.Chain' (fun a c =>
        c.start = ⟨a.start.year + a.start.month / 12, a.start.month % 12 + 1, 1⟩) spans := by
  intro fuel
  induction fuel with
  | zero =>
    intro start spans hs h1 heq
    simp [spanLoop] at heq
  | succ fuel ih =>
    intro start spans hs h1 heq
    rw [spanLoop_succ_eq] at heq
    split at heq
    next hstop =>
      obtain rfl : [(⟨start, Date.addDays start (daysInMonth start.year start.month - 1)⟩ :
          Span)] = spans := by
        injection heq
      refine ⟨?_, by simp⟩
      intro sp hsp
      rw [List.mem_singleton] at hsp
      subst hsp
      exact ⟨h1, month_stop_eq start h1⟩
    next hstop =>
      obtain ⟨rest, hrest, hcons⟩ := Option.map_eq_some'.1 heq
      subst hcons
      have hsucc_eq := month_succ_stop start hs h1
      have hsv : (Date.succ (Date.addDays start (daysInMonth start.year start.month - 1))).Valid :=
        Date.succ_valid _ (addDays_any_valid start _ hs)
      have h1' : (Date.succ (Date.addDays start (daysInMonth start.year start.month - 1))).day
          = 1 := by
        rw [hsucc_eq]
      obtain ⟨imem, ichain⟩ := ih _ rest hsv h1' hrest
      obtain ⟨ihead, _, _, _, _⟩ := spanLoop_spec
        (fun s => Date.addDays s (daysInMonth s.year s.month - 1)) e
        (fun s hsv2 => addDays_any_valid s _ hsv2) fuel _ rest hsv hrest
      constructor
      · intro sp hsp
        rcases List.mem_cons.1 hsp with rfl | hmem
        · exact ⟨h1, month_stop_eq start h1⟩
        · exact imem sp hmem
      · rw [List.chain'_cons']
        refine ⟨?_, ichain⟩
        intro bspan hb
        rw [ihead] at hb
        simp at hb
        subst hb
        exact hsucc_eq

theorem src_month_increment (y m : Nat) (hy : 1 ≤ y) (hm : 1 ≤ m) (hm2 : m ≤ 12) :
    toOrdinal ⟨y + m / 12, m % 12 + 1, 1⟩ - toOrdinal ⟨y, m, 1⟩ = daysInMonth y m := by
  rcases Nat.lt_or_ge m 12 with h12 | h12
  · have e1 : m / 12 = 0 := Nat.div_eq_of_lt h12
    have e2 : m % 12 = m := Nat.mod_eq_of_lt h12
    rw [e1, e2]
    simp only [Nat.add_zero]
    rw [toOrdinal_mk, toOrdinal_mk, daysBeforeMonth_succ y m hm]
    omega
  · have hmeq : m = 12 := by omega
    subst hmeq
    have hby := daysBeforeYear_succ y hy
    have hup := daysUpTo_twelve y
    rw [← hup] at hby
    have hbm : daysBeforeMonth y 12 = daysUpTo y 11 := rfl
    have hup2 : daysUpTo y 12 = daysUpTo y 11 + daysInMonth y 12 := rfl
    have e1 : (12 : Nat) / 12 = 1 := by norm_num
    have e2 : (12 : Nat) % 12 = 0 := by norm_num
    rw [e1, e2, toOrdinal_mk, toOrdinal_mk, daysBeforeMonth_one]
    omega

/-- Claim C2 counterexample: the month generator of `source/date_handler.py` at
`begin = end = 2024-02-15` yields the single span `[2024-02-15, 2024-03-14]`, not
the claimed `[2024-02-01, 2024-02-29]`: its first span starts at `begin` itself,
not at the 1st of `begin`'s month. -/
theorem source_month_span_counterexample :
    SourceDateHandler.generate_month_span ⟨2024, 2, 15⟩ ⟨2024, 2, 15⟩ =
      some [⟨⟨2024, 2, 15⟩, ⟨2024, 3, 14⟩⟩] ∧
    SourceDateHandler.generate_month_span ⟨2024, 2, 15⟩ ⟨2024, 2, 15⟩ ≠
      some [⟨⟨2024, 2, 1⟩, ⟨2024, 2, 29⟩⟩] := by
  constructor
  · decide
  · decide

/-- Claim C2 (amended): the month generator of the top-level `date_handler.py`
behaves as claimed for every `begin <= end` — first span from the 1st of `begin`'s
month to its last calendar day (variable month lengths and leap-year February per
`daysInMonth`), each subsequent span starting on the 1st of the next month, with
`begin = end = 2024-02-15` giving exactly `[2024-02-01, 2024-02-29]` and
`begin = end = 2023-02-15` giving `[2023-02-01, 2023-02-28]` — but the month
generator of `source/date_handler.py` instead starts its first span at `begin`
itself and spans one month-length from there; at `begin = end = 2024-02-15` it
yields `[2024-02-15, 2024-03-14]`. -/
theorem generate_month_span_amended :
    (DateHandler.generate_month_span ⟨2024, 2, 15⟩ ⟨2024, 2, 15⟩ =
      some [⟨⟨2024, 2, 1⟩, ⟨2024, 2, 29⟩⟩]) ∧
    (DateHandler.generate_month_span ⟨2023, 2, 15⟩ ⟨2023, 2, 15⟩ =
      some [⟨⟨2023, 2, 1⟩, ⟨2023, 2, 28⟩⟩]) ∧
    (SourceDateHandler.generate_month_span ⟨2024, 2, 15⟩ ⟨2024, 2, 15⟩ =
      some [⟨⟨2024, 2, 15⟩, ⟨2024, 3, 14⟩⟩]) ∧
    ∀ b e : Date, b.Valid → e.Valid → Date.le b e →
      (∀ spans, DateHandler.generate_month_span b e = some spans →
        spans.head? = some ⟨⟨b.year, b.month, 1⟩,
          ⟨b.year, b.month, daysInMonth b.year b.month⟩⟩ ∧
        (∀ sp ∈ spans, sp.start.day = 1 ∧
          sp.stop =
            ⟨sp.start.year, sp.start.month, daysInMonth sp.start.year sp.start.month⟩) ∧
        List.Chain' (fun a c =>
          c.start = ⟨a.start.year + a.start.month / 12, a.start.month % 12 + 1, 1⟩) spans) ∧
      (∀ spans, SourceDateHandler.generate_month_span b e = some spans →
        spans.head? = some ⟨b, Date.addDays b (daysInMonth b.year b.month - 1)⟩) := by
  refine ⟨by decide, by decide, by decide, ?_⟩
  intro b e hb he _hbe
  constructor
  · intro spans heq
    unfold DateHandler.generate_month_span at heq
    have h0 := first_of_month_valid b hb
    obtain ⟨ihead, _, _, _, _⟩ := spanLoop_spec _ e
      (fun s hs => addDays_any_valid s _ hs) _ _ spans h0 heq
    obtain ⟨imem, ichain⟩ := month_chain e _ _ spans h0 rfl heq
    refine ⟨?_, imem, ichain⟩
    rw [ihead, month_stop_eq ⟨b.year, b.month, 1⟩ rfl]
  · intro spans heq
    unfold SourceDateHandler.generate_month_span at heq
    obtain ⟨ihead, _, _, _, _⟩ := spanLoop_spec _ e
      (fun s hs => addDays_any_valid s _ hs) _ _ spans hb heq
    rw [ihead, src_month_increment b.year b.month hb.1 hb.2.1 hb.2.2.1]

theorem generate_month_span_amended_witness :
    ([Span.mk ⟨2024, 2, 1⟩ ⟨2024, 2, 29⟩] : List Span).head? =
      some ⟨⟨2024, 2, 1⟩, ⟨2024, 2, 29⟩⟩ ∧
    (∀ sp ∈ [Span.mk ⟨2024, 2, 1⟩ ⟨2024, 2, 29⟩], sp.start.day = 1 ∧
      sp.stop = ⟨sp.start.year, sp.start.month, daysInMonth sp.start.year sp.start.month⟩) ∧
    List.Chain' (fun a c =>
      c.start = ⟨a.start.year + a.start.month / 12, a.start.month % 12 + 1, 1⟩)
      [Span.mk ⟨2024, 2, 1⟩ ⟨2024, 2, 29⟩] :=
  (generate_month_span_amended.2.2.2 ⟨2024, 2, 15⟩ ⟨2024, 2, 15⟩ (by decide) (by decide)
    (by decide)).1 [Span.mk ⟨2024, 2, 1⟩ ⟨2024, 2, 29⟩] (by decide)

/-- Claim C3 counterexample: the week generator of `source/date_handler.py` at
`begin = end = 2024-06-13` (a Thursday) yields the single span
`[2024-06-13, 2024-06-19]`: it starts at `begin` itself, with no backward
adjustment to Monday, not the claimed `[2024-06-10, 2024-06-16]`. -/
theorem source_week_span_counterexample :
    SourceDateHandler.generate_week_span ⟨2024, 6, 13⟩ ⟨2024, 6, 13⟩ =
      some [⟨⟨2024, 6, 13⟩, ⟨2024, 6, 19⟩⟩] ∧
    SourceDateHandler.generate_week_span ⟨2024, 6, 13⟩ ⟨2024, 6, 13⟩ ≠
      some [⟨⟨2024, 6, 10⟩, ⟨2024, 6, 16⟩⟩] := by
  constructor
  · decide
  · decide

/-- Claim C3 (amended): the week generator of the top-level `date_handler.py`
behaves as claimed for every `begin <= end` — the first span's start is `begin`
adjusted backward to the most recent Monday (weekday 0, at most 6 days back) and
every span covers exactly 7 days (`stop = start + 6 days`); in particular
`begin = end = 2024-06-13` (a Thursday) yields `[2024-06-10, 2024-06-16]`. The
week generator of `source/date_handler.py` instead starts its first span at
`begin` itself with no Monday alignment (spans still cover exactly 7 days); at
`begin = end = 2024-06-13` it yields `[2024-06-13, 2024-06-19]`. -/
theorem generate_week_span_amended :
    (DateHandler.generate_week_span ⟨2024, 6, 13⟩ ⟨2024, 6, 13⟩ =
      some [⟨⟨2024, 6, 10⟩, ⟨2024, 6, 16⟩⟩]) ∧
    (SourceDateHandler.generate_week_span ⟨2024, 6, 13⟩ ⟨2024, 6, 13⟩ =
      some [⟨⟨2024, 6, 13⟩, ⟨2024, 6, 19⟩⟩]) ∧
    ∀ b e : Date, b.Valid → e.Valid → Date.le b e →
      (∀ spans, DateHandler.generate_week_span b e = some spans →
        (∀ sp, spans.head? = some sp →
          sp.start = Date.subDays b (Date.weekday b) ∧ Date.weekday sp.start = 0 ∧
          Date.le sp.start b ∧ toOrdinal b ≤ toOrdinal sp.start + 6) ∧
        (∀ sp ∈ spans, sp.stop = Date.addDays sp.start 6)) ∧
      (∀ spans, SourceDateHandler.generate_week_span b e = some spans →
        (∀ sp, spans.head? = some sp → sp.start = b) ∧
        (∀ sp ∈ spans, sp.stop = Date.addDays sp.start 6)) := by
  refine ⟨by decide, by decide, ?_⟩
  intro b e hb he _hbe
  constructor
  · intro spans heq
    unfold DateHandler.generate_week_span at heq
    obtain ⟨hle0, hord, h0⟩ := subDays_weekday_le b hb
    obtain ⟨ihead, imem, _, _, _⟩ := spanLoop_spec _ e
      (fun s hs => addDays_any_valid s _ hs) _ _ spans h0 heq
    refine ⟨?_, fun sp hsp => (imem sp hsp).2⟩
    intro sp hsp
    rw [ihead] at hsp
    injection hsp with hsp
    subst hsp
    exact ⟨rfl, weekday_subDays_monday b hb, hle0, hord⟩
  · intro spans heq
    unfold SourceDateHandler.generate_week_span at heq
    obtain ⟨ihead, imem, _, _, _⟩ := spanLoop_spec _ e
      (fun s hs => addDays_any_valid s _ hs) _ _ spans hb heq
    refine ⟨?_, fun sp hsp => (imem sp hsp).2⟩
    intro sp hsp
    rw [ihead] at hsp
    injection hsp with hsp
    subst hsp
    rfl

theorem generate_week_span_amended_witness :
    (∀ sp, ([Span.mk ⟨2024, 6, 10⟩ ⟨2024, 6, 16⟩] : List Span).head? = some sp →
      sp.start = Date.subDays ⟨2024, 6, 13⟩ (Date.weekday ⟨2024, 6, 13⟩) ∧
      Date.weekday sp.start = 0 ∧ Date.le sp.start ⟨2024, 6, 13⟩ ∧
      toOrdinal ⟨2024, 6, 13⟩ ≤ toOrdinal sp.start + 6) ∧
    (∀ sp ∈ [Span.mk ⟨2024, 6, 10⟩ ⟨2024, 6, 16⟩], sp.stop = Date.addDays sp.start 6) :=
  ((generate_week_span_amended.2.2 ⟨2024, 6, 13⟩ ⟨2024, 6, 13⟩ (by decide) (by decide)
    (by decide))).1 [Span.mk ⟨2024, 6, 10⟩ ⟨2024, 6, 16⟩] (by decide)

/-- Claim C7: constructing a `Duration` (in either `date_handler.py` version) with
`begin > end` fails with the invalid-range error before any span is produced;
with `begin <= end`, an unrecognized period token fails with the
unknown-granularity error and one of the four registered tokens succeeds,
raising neither error. -/
theorem duration_init_spec (b e : Date) (p : String) :
    (Date.lt e b →
      DateHandler.Duration.init b e p = .error .invalidRange ∧
      SourceDateHandler.Duration.init b e p = .error .invalidRange) ∧
    (Date.le b e →
      ((p = "year" ∨ p = "month" ∨ p = "week" ∨ p = "day") →
        DateHandler.Duration.init b e p = .ok ⟨b, e, p⟩ ∧
        SourceDateHandler.Duration.init b e p = .ok ⟨b, e, p⟩) ∧
      (¬(p = "year" ∨ p = "month" ∨ p = "week" ∨ p = "day") →
        DateHandler.Duration.init b e p = .error .unknownGranularity ∧
        SourceDateHandler.Duration.init b e p = .error .unknownGranularity)) := by
  refine ⟨?_, ?_⟩
  · intro hlt
    constructor
    · unfold DateHandler.Duration.init
      rw [if_pos hlt]
    · unfold SourceDateHandler.Duration.init
      rw [if_pos hlt]
  · intro hle
    have hnlt : ¬ Date.lt e b := Date.not_lt.2 hle
    constructor
    · intro hp
      constructor
      · unfold DateHandler.Duration.init
        rw [if_neg hnlt, if_pos]
        rcases hp with rfl | rfl | rfl | rfl <;> decide
      · unfold SourceDateHandler.Duration.init
        rw [if_neg hnlt, if_pos]
        rcases hp with rfl | rfl | rfl | rfl <;> decide
    · intro hp
      have h1 : p ≠ "year" := fun h => hp (Or.inl h)
      have h2 : p ≠ "month" := fun h => hp (Or.inr (Or.inl h))
      have h3 : p ≠ "week" := fun h => hp (Or.inr (Or.inr (Or.inl h)))
      have h4 : p ≠ "day" := fun h => hp (Or.inr (Or.inr (Or.inr h)))
      have hr1 : DateHandler.span_generators p = none := by
        unfold DateHandler.span_generators
        rw [if_neg h1, if_neg h2, if_neg h3, if_neg h4]
      have hr2 : SourceDateHandler.span_generators p = none := by
        unfold SourceDateHandler.span_generators
        rw [if_neg h1, if_neg h2, if_neg h3, if_neg h4]
      constructor
      · unfold DateHandler.Duration.init
        rw [if_neg hnlt, if_neg]
        rw [hr1]
        simp
      · unfold SourceDateHandler.Duration.init
        rw [if_neg hnlt, if_neg]
        rw [hr2]
        simp

theorem duration_init_spec_witness :
    (DateHandler.Duration.init ⟨2024, 1, 1⟩ ⟨2024, 1, 2⟩ "month" =
      .ok ⟨⟨2024, 1, 1⟩, ⟨2024, 1, 2⟩, "month"⟩ ∧
    SourceDateHandler.Duration.init ⟨2024, 1, 1⟩ ⟨2024, 1, 2⟩ "month" =
      .ok ⟨⟨2024, 1, 1⟩, ⟨2024, 1, 2⟩, "month"⟩) :=
  ((duration_init_spec ⟨2024, 1, 1⟩ ⟨2024, 1, 2⟩ "month").2 (by decide)).1
    (Or.inr (Or.inl rfl))

theorem zipAllEq_iff (xs ys : List String) :
    zipAllEq xs ys = true ↔ xs <+: ys ∨ ys <+: xs := by
  induction xs generalizing ys with
  | nil => simp [zipAllEq]
  | cons a xs ih =>
    cases ys with
    | nil => simp [zipAllEq]
    | cons bb ys =>
      have h1 : zipAllEq (a :: xs) (bb :: ys) = ((a == bb) && zipAllEq xs ys) := rfl
      rw [h1, Bool.and_eq_true, beq_iff_eq, ih, List.cons_prefix_cons,
        List.cons_prefix_cons]
      constructor
      · rintro ⟨rfl, h | h⟩
        · exact Or.inl ⟨rfl, h⟩
        · exact Or.inr ⟨rfl, h⟩
      · rintro (⟨rfl, h⟩ | ⟨rfl, h⟩)
        · exact ⟨rfl, Or.inl h⟩
        · exact ⟨rfl, Or.inr h⟩

/-- Claim C1 counterexample: a category filter strictly longer than the entry's
category sequence can match. The entry with groups `[food, dining]` matches the
length-3 filter `[food, dining, organic]` because Python's `zip` truncates to the
shorter sequence, so the claimed "a filter longer than the Entry's category
sequence never matches (the comparison yields false)" is false on the code. -/
theorem filter_groups_long_filter_matches :
    (["food", "dining"] : List String).length <
      (["food", "dining", "organic"] : List String).length ∧
    Entry.filter_groups ⟨⟨2024, 1, 1⟩, 0, 0, ["food", "dining"]⟩
      (some ["food", "dining", "organic"]) = true := by
  constructor
  · decide
  · rfl

/-- Claim C1 (amended): for every entry and filter, an absent filter matches
every entry, and `filter_groups`/`is_in_groups` accept a present filter iff the
two sequences agree on their common prefix, i.e. iff the entry's category
sequence is a prefix of the filter or the filter is a prefix of the entry's
category sequence. For a filter of length k at most the length of the category
sequence this is exactly the claimed prefix match (including the empty filter
matching everything); a longer filter, however, matches whenever the whole
category sequence is a prefix of it, rather than never matching. No shape is an
error either way. -/
theorem filter_groups_prefix_compat (e : Entry) (dm : DataManager.Entry)
    (gs : List String) :
    Entry.filter_groups e none = true ∧
    DataManager.Entry.is_in_groups dm none = true ∧
    (Entry.filter_groups e (some gs) = true ↔ e.groups <+: gs ∨ gs <+: e.groups) ∧
    (DataManager.Entry.is_in_groups dm (some gs) = true ↔
      dm.groups.toList <+: gs ∨ gs <+: dm.groups.toList) := by
  refine ⟨rfl, rfl, ?_, ?_⟩
  · exact zipAllEq_iff e.groups gs
  · exact zipAllEq_iff dm.groups.toList gs

theorem list_sum_map_sub {α : Type} (l : List α) (f g : α → Int) :
    (l.map fun x => f x - g x).sum = (l.map f).sum - (l.map g).sum := by
  induction l with
  | nil => simp
  | cons a l ih =>
    simp only [List.map_cons, List.sum_cons, ih]
    ring

/-- Claim C8: for every date range and category filter over the same `AccountBook`,
`sum_balance` equals `sum_income` minus `sum_outgo`, and when no entry satisfies
both filters each of the three sums returns 0 (never an error). -/
theorem sum_consistency (book : AccountBook) (b? e? : Option Date)
    (gs? : Option (List String)) :
    book.sum_balance b? e? gs? = book.sum_income b? e? gs? - book.sum_outgo b? e? gs? ∧
    ((∀ en ∈ book.entries,
        ¬(en.filter_duration b? e? = true ∧ en.filter_groups gs? = true)) →
      book.sum_income b? e? gs? = 0 ∧ book.sum_outgo b? e? gs? = 0 ∧
        book.sum_balance b? e? gs? = 0) := by
  constructor
  · unfold AccountBook.sum_balance AccountBook.sum_income AccountBook.sum_outgo
    exact list_sum_map_sub _ _ _
  · intro h
    have hnil : book.entries.filter
        (fun en => en.filter_duration b? e? && en.filter_groups gs?) = [] := by
      rw [List.filter_eq_nil_iff]
      intro a ha
      rw [Bool.and_eq_true]
      exact fun hc => h a ha ⟨hc.1, hc.2⟩
    unfold AccountBook.sum_income AccountBook.sum_outgo AccountBook.sum_balance
    rw [hnil]
    simp

theorem sum_consistency_witness :
    AccountBook.sum_income ⟨[⟨⟨2024, 5, 5⟩, 7, 3, ["x"]⟩], ⟨2024, 5, 5⟩, ⟨2024, 5, 5⟩⟩
      (some ⟨2023, 1, 1⟩) (some ⟨2023, 12, 31⟩) none = 0 ∧
    AccountBook.sum_outgo ⟨[⟨⟨2024, 5, 5⟩, 7, 3, ["x"]⟩], ⟨2024, 5, 5⟩, ⟨2024, 5, 5⟩⟩
      (some ⟨2023, 1, 1⟩) (some ⟨2023, 12, 31⟩) none = 0 ∧
    AccountBook.sum_balance ⟨[⟨⟨2024, 5, 5⟩, 7, 3, ["x"]⟩], ⟨2024, 5, 5⟩, ⟨2024, 5, 5⟩⟩
      (some ⟨2023, 1, 1⟩) (some ⟨2023, 12, 31⟩) none = 0 :=
  (sum_consistency ⟨[⟨⟨2024, 5, 5⟩, 7, 3, ["x"]⟩], ⟨2024, 5, 5⟩, ⟨2024, 5, 5⟩⟩
    (some ⟨2023, 1, 1⟩) (some ⟨2023, 12, 31⟩) none).2 (by decide)

theorem dmin_cases (a x : Date) : dmin a x = a ∨ dmin a x = x := by
  unfold dmin
  split
  · exact Or.inr rfl
  · exact Or.inl rfl

theorem dmax_cases (a x : Date) : dmax a x = a ∨ dmax a x = x := by
  unfold dmax
  split
  · exact Or.inr rfl
  · exact Or.inl rfl

theorem Date.le_of_lt {a b : Date} (h : Date.lt a b) : Date.le a b := by
  simp only [Date.le, Date.lt] at h ⊢
  omega

theorem dmin_bound (a x : Date) : Date.le (dmin a x) a ∧ Date.le (dmin a x) x := by
  unfold dmin
  split
  next h => exact ⟨Date.le_of_lt h, Date.le_refl x⟩
  next h => exact ⟨Date.le_refl a, Date.not_lt.1 h⟩

theorem dmax_bound (a x : Date) : Date.le a (dmax a x) ∧ Date.le x (dmax a x) := by
  unfold dmax
  split
  next h => exact ⟨Date.le_of_lt h, Date.le_refl x⟩
  next h => exact ⟨Date.le_refl a, Date.not_lt.1 h⟩

theorem foldl_pick_mem (pick : Date → Date → Date)
    (hp : ∀ a x, pick a x = a ∨ pick a x = x) :
    ∀ (ds : List Date) (d : Date), ds.foldl pick d ∈ d :: ds := by
  intro ds
  induction ds with
  | nil =>
    intro d
    simp
  | cons x ds ih =>
    intro d
    have h1 := ih (pick d x)
    show ds.foldl pick (pick d x) ∈ d :: x :: ds
    rcases List.mem_cons.1 h1 with h | h
    · rcases hp d x with h2 | h2
      · rw [h, h2]
        exact List.mem_cons_self _ _
      · rw [h, h2]
        exact List.mem_cons_of_mem _ (List.mem_cons_self _ _)
    · exact List.mem_cons_of_mem _ (List.mem_cons_of_mem _ h)

theorem foldl_pick_bound (pick : Date → Date → Date) (R : Date → Date → Prop)
    (hrefl : ∀ a, R a a) (htrans : ∀ {a b c : Date}, R a b → R b c → R a c)
    (hb : ∀ a x, R (pick a x) a ∧ R (pick a x) x) :
    ∀ (ds : List Date) (d : Date) (y : Date), y ∈ d :: ds → R (ds.foldl pick d) y := by
  intro ds
  induction ds with
  | nil =>
    intro d y hy
    rw [List.mem_singleton] at hy
    subst hy
    exact hrefl y
  | cons x ds ih =>
    intro d y hy
    show R (ds.foldl pick (pick d x)) y
    rcases List.mem_cons.1 hy with heq | hy2
    · rw [heq]
      exact htrans (ih (pick d x) (pick d x) (List.mem_cons_self _ _)) (hb d x).1
    · rcases List.mem_cons.1 hy2 with heq | hy3
      · rw [heq]
        exact htrans (ih (pick d x) (pick d x) (List.mem_cons_self _ _)) (hb d x).2
      · exact ih (pick d x) y (List.mem_cons_of_mem _ hy3)

/-- Claim C10: every successfully constructed `AccountBook` contains at least one
entry, because `AccountBook.__init__` eagerly computes the minimum and maximum
entry dates: construction from an empty entry sequence always fails (Python's
`min`/`max` raise `ValueError`), regardless of what ranges the caller would
later supply. -/
theorem account_book_requires_entry :
    AccountBook.init ([] : List Entry) = none ∧
    ∀ (es : List Entry) (book : AccountBook), AccountBook.init es = some book →
      book.entries = es ∧ es ≠ [] := by
  refine ⟨rfl, ?_⟩
  intro es book h
  unfold AccountBook.init at h
  split at h
  next => exact Option.noConfusion h
  next d ds heq =>
    injection h with h2
    rw [← h2]
    refine ⟨rfl, ?_⟩
    intro hnil
    rw [hnil] at heq
    exact List.noConfusion heq

theorem account_book_requires_entry_witness :
    (AccountBook.mk [⟨⟨2024, 1, 1⟩, 5, 2, ["a"]⟩] ⟨2024, 1, 1⟩ ⟨2024, 1, 1⟩).entries =
      [⟨⟨2024, 1, 1⟩, 5, 2, ["a"]⟩] ∧
    ([(⟨⟨2024, 1, 1⟩, 5, 2, ["a"]⟩ : Entry)] : List Entry) ≠ [] :=
  account_book_requires_entry.2 [⟨⟨2024, 1, 1⟩, 5, 2, ["a"]⟩]
    (AccountBook.mk [⟨⟨2024, 1, 1⟩, 5, 2, ["a"]⟩] ⟨2024, 1, 1⟩ ⟨2024, 1, 1⟩) (by decide)

/-- Claim C5 counterexample: per the spec, `Ledger(entries)` accepts any sequence
as-is and only aggregation over a default (unspecified) range fails on a
zero-entry ledger; but `AccountBook.__init__` computes `min`/`max` of the entry
dates eagerly, so constructing the book from zero entries already fails
(Python's `min` raises `ValueError`), before any aggregation is requested. -/
theorem account_book_empty_init_fails : AccountBook.init ([] : List Entry) = none := rfl

/-- Claim C5 (amended): when `begin` and `end` are both unspecified, `summarize`
substitutes the stored minimum and maximum entry dates, which are exactly the
minimum and maximum of the entry dates of the book; this requires at least one
entry, which is enforced eagerly at construction time: an `AccountBook` with
zero entries cannot be constructed at all (the constructor's `min`/`max` fail on
an empty sequence), so the failure surfaces at construction rather than as an
aggregation-time empty-ledger error. -/
theorem summarize_default_range_amended :
    AccountBook.init ([] : List Entry) = none ∧
    ∀ (es : List Entry) (book : AccountBook) (gs? : Option (List String)) (p : String),
      AccountBook.init es = some book →
      book.summarize none none gs? p =
        book.summarize (some book.minDate) (some book.maxDate) gs? p ∧
      book.minDate ∈ es.map Entry.date ∧
      (∀ en ∈ es, Date.le book.minDate en.date) ∧
      book.maxDate ∈ es.map Entry.date ∧
      (∀ en ∈ es, Date.le en.date book.maxDate) := by
  refine ⟨rfl, ?_⟩
  intro es book gs? p h
  unfold AccountBook.init at h
  split at h
  next => exact Option.noConfusion h
  next d ds heq =>
    injection h with h2
    rw [← h2]
    refine ⟨rfl, ?_, ?_, ?_, ?_⟩
    · show ds.foldl dmin d ∈ es.map Entry.date
      rw [heq]
      exact foldl_pick_mem dmin dmin_cases ds d
    · intro en hen
      have hmem : en.date ∈ d :: ds := by
        rw [← heq]
        exact List.mem_map_of_mem Entry.date hen
      exact foldl_pick_bound dmin Date.le Date.le_refl
        (fun hab hbc => Date.le_trans hab hbc) dmin_bound ds d en.date hmem
    · show ds.foldl dmax d ∈ es.map Entry.date
      rw [heq]
      exact foldl_pick_mem dmax dmax_cases ds d
    · intro en hen
      have hmem : en.date ∈ d :: ds := by
        rw [← heq]
        exact List.mem_map_of_mem Entry.date hen
      exact foldl_pick_bound dmax (fun a c => Date.le c a) Date.le_refl
        (fun hab hbc => Date.le_trans hbc hab) dmax_bound ds d en.date hmem

theorem summarize_default_range_amended_witness :
    (AccountBook.mk [⟨⟨2024, 1, 1⟩, 5, 2, ["a"]⟩] ⟨2024, 1, 1⟩ ⟨2024, 1, 1⟩).summarize
        none none none "month" =
      (AccountBook.mk [⟨⟨2024, 1, 1⟩, 5, 2, ["a"]⟩] ⟨2024, 1, 1⟩ ⟨2024, 1, 1⟩).summarize
        (some ⟨2024, 1, 1⟩) (some ⟨2024, 1, 1⟩) none "month" ∧
    (⟨2024, 1, 1⟩ : Date) ∈ [(⟨⟨2024, 1, 1⟩, 5, 2, ["a"]⟩ : Entry)].map Entry.date ∧
    (∀ en ∈ [(⟨⟨2024, 1, 1⟩, 5, 2, ["a"]⟩ : Entry)], Date.le ⟨2024, 1, 1⟩ en.date) ∧
    (⟨2024, 1, 1⟩ : Date) ∈ [(⟨⟨2024, 1, 1⟩, 5, 2, ["a"]⟩ : Entry)].map Entry.date ∧
    (∀ en ∈ [(⟨⟨2024, 1, 1⟩, 5, 2, ["a"]⟩ : Entry)], Date.le en.date ⟨2024, 1, 1⟩) :=
  summarize_default_range_amended.2 [⟨⟨2024, 1, 1⟩, 5, 2, ["a"]⟩]
    (AccountBook.mk [⟨⟨2024, 1, 1⟩, 5, 2, ["a"]⟩] ⟨2024, 1, 1⟩ ⟨2024, 1, 1⟩) none "month"
    (by decide)

theorem sum_filter_split {α : Type} (p : α → Bool) (f : α → Int) (l : List α) :
    (l.map f).sum = ((l.filter p).map f).sum + ((l.filter fun x => !p x).map f).sum := by
  induction l with
  | nil => simp
  | cons a l ih =>
    cases hp : p a <;> simp [List.filter_cons, hp, ih] <;> ring

theorem fiber_filter_comm {α κ : Type} [DecidableEq κ] (key : α → κ) (k k2 : κ)
    (hne : k2 ≠ k) :
    ∀ l : List α, (l.filter fun x => key x == k2) =
      ((l.filter fun x => !(key x == k)).filter fun x => key x == k2) := by
  intro l
  induction l with
  | nil => rfl
  | cons a l ih =>
    by_cases h2 : key a = k2
    · have hk : (key a == k) = false := by
        rw [beq_eq_false_iff_ne]
        rw [h2]
        exact hne
      have h2' : (key a == k2) = true := by
        rw [beq_iff_eq]
        exact h2
      simp [List.filter_cons, h2', hk, ih]
    · have h2' : (key a == k2) = false := beq_eq_false_iff_ne.2 h2
      by_cases hk : key a = k
      · have hk' : (key a == k) = true := by
          rw [beq_iff_eq]
          exact hk
        simp [List.filter_cons, h2', hk', ih]
      · have hk' : (key a == k) = false := beq_eq_false_iff_ne.2 hk
        simp [List.filter_cons, h2', hk', ih]

theorem sum_fibers_congr {α κ : Type} [DecidableEq κ] (key : α → κ) (f : α → Int) :
    ∀ (ks : List κ) (l l2 : List α),
      (∀ k2 ∈ ks, (l.filter fun x => key x == k2) = (l2.filter fun x => key x == k2)) →
      (ks.map fun k2 => ((l.filter fun x => key x == k2).map f).sum) =
        (ks.map fun k2 => ((l2.filter fun x => key x == k2).map f).sum) := by
  intro ks
  induction ks with
  | nil =>
    intro l l2 _
    rfl
  | cons k ks ih =>
    intro l l2 h
    simp only [List.map_cons]
    rw [h k (List.mem_cons_self _ _),
      ih l l2 (fun k2 hk2 => h k2 (List.mem_cons_of_mem _ hk2))]

theorem sum_over_fibers {α κ : Type} [DecidableEq κ] (key : α → κ) (f : α → Int) :
    ∀ (ks : List κ) (l : List α), ks.Nodup → (∀ x ∈ l, key x ∈ ks) →
      (ks.map fun k => ((l.filter fun x => key x == k).map f).sum).sum = (l.map f).sum := by
  intro ks
  induction ks with
  | nil =>
    intro l _ hall
    cases l with
    | nil => rfl
    | cons a l => exact absurd (hall a (List.mem_cons_self a l)) (List.not_mem_nil _)
  | cons k ks ih =>
    intro l hnodup hall
    rw [List.map_cons, List.sum_cons]
    have hcongr := sum_fibers_congr key f ks l (l.filter fun x => !(key x == k))
      (fun k2 hk2 =>
        fiber_filter_comm key k k2
          (fun hkk => (List.nodup_cons.1 hnodup).1 (hkk ▸ hk2)) l)
    have hall2 : ∀ x ∈ l.filter fun x => !(key x == k), key x ∈ ks := by
      intro x hx
      obtain ⟨hxl, hxne⟩ := List.mem_filter.1 hx
      rcases List.mem_cons.1 (hall x hxl) with h | h
      · exfalso
        rw [h] at hxne
        simp at hxne
      · exact h
    rw [hcongr, ih (l.filter fun x => !(key x == k)) (List.nodup_cons.1 hnodup).2 hall2]
    exact (sum_filter_split (fun x => key x == k) f l).symm

theorem headD_eq_head {α : Type} (l : List α) (d : α) (h : l ≠ []) :
    l.head? = some (l.headD d) := by
  cases l with
  | nil => exact absurd rfl h
  | cons a l => rfl

/-- Claim C9: `get_breakdown` (modelled from the spec, since only its call site in
`gui/breakdown.py` appears in the sources) maps each distinct top-level category
label — the first element of an entry's category sequence — to the sum of
`income - outgo` over the entries with `span.start <= date <= span.stop`, with
no category filter; the sum of all its values equals `sum_balance` over the same
bounds with an absent filter. -/
theorem get_breakdown_spec (book : AccountBook) (sp : Span)
    (hne : ∀ en ∈ book.entries, en.groups ≠ []) :
    (∀ en ∈ book.entries, en.groups.head? = some (en.groups.headD "")) ∧
    ((book.get_breakdown sp).map Prod.snd).sum =
      book.sum_balance (some sp.start) (some sp.stop) none ∧
    (∀ k v, (k, v) ∈ book.get_breakdown sp →
      v = (((book.entries.filter fun en =>
          decide (Date.le sp.start en.date) && decide (Date.le en.date sp.stop)).filter
            fun en => en.groups.headD "" == k).map fun en => en.income - en.outgo).sum) ∧
    (∀ en ∈ book.entries, Date.le sp.start en.date → Date.le en.date sp.stop →
      en.groups.headD "" ∈ (book.get_breakdown sp).map Prod.fst) := by
  refine ⟨?_, ?_, ?_, ?_⟩
  · intro en hen
    exact headD_eq_head en.groups "" (hne en hen)
  · unfold AccountBook.get_breakdown
    simp only [List.map_map]
    have hmaps : (Prod.snd ∘ fun k => (k,
        ((((book.entries.filter fun en =>
          decide (Date.le sp.start en.date) && decide (Date.le en.date sp.stop)).filter
            fun en => en.groups.headD "" == k).map fun en => en.income - en.outgo)).sum)) =
        fun k => ((((book.entries.filter fun en =>
          decide (Date.le sp.start en.date) && decide (Date.le en.date sp.stop)).filter
            fun en => en.groups.headD "" == k).map fun en => en.income - en.outgo)).sum :=
      rfl
    rw [hmaps]
    have htot := sum_over_fibers (fun en : Entry => en.groups.headD "")
      (fun en => en.income - en.outgo)
      (((book.entries.filter fun en =>
        decide (Date.le sp.start en.date) && decide (Date.le en.date sp.stop)).map
          fun en => en.groups.headD "").dedup)
      (book.entries.filter fun en =>
        decide (Date.le sp.start en.date) && decide (Date.le en.date sp.stop))
      (List.nodup_dedup _)
      (fun x hx => List.mem_dedup.2 (List.mem_map_of_mem _ hx))
    rw [htot]
    have hpred : (fun en : Entry =>
        en.filter_duration (some sp.start) (some sp.stop) && en.filter_groups none) =
        fun en : Entry =>
          decide (Date.le sp.start en.date) && decide (Date.le en.date sp.stop) := by
      funext en
      show (en.filter_duration (some sp.start) (some sp.stop) && true) = _
      rw [Bool.and_true]
      rfl
    unfold AccountBook.sum_balance
    rw [hpred]
  · intro k v hmem
    unfold AccountBook.get_breakdown at hmem
    obtain ⟨k2, _, heq2⟩ := List.mem_map.1 hmem
    injection heq2 with hk hv
    rw [← hv, hk]
  · intro en hen h1 h2
    unfold AccountBook.get_breakdown
    simp only [List.map_map]
    have hfst : (Prod.fst ∘ fun k => (k,
        ((((book.entries.filter fun en =>
          decide (Date.le sp.start en.date) && decide (Date.le en.date sp.stop)).filter
            fun en => en.groups.headD "" == k).map fun en => en.income - en.outgo)).sum)) =
        fun k : String => k :=
      rfl
    rw [hfst, List.map_id']
    apply List.mem_dedup.2
    apply List.mem_map_of_mem
    apply List.mem_filter.2
    refine ⟨hen, ?_⟩
    rw [decide_eq_true h1, decide_eq_true h2]
    rfl

theorem get_breakdown_spec_witness :
    (∀ en ∈ (AccountBook.mk [⟨⟨2024, 1, 5⟩, 1000, 0, ["food", "groceries"]⟩,
        ⟨⟨2024, 1, 20⟩, 0, 200, ["food", "dining"]⟩] ⟨2024, 1, 5⟩ ⟨2024, 1, 20⟩).entries,
      en.groups.head? = some (en.groups.headD "")) ∧
    (((AccountBook.mk [⟨⟨2024, 1, 5⟩, 1000, 0, ["food", "groceries"]⟩,
        ⟨⟨2024, 1, 20⟩, 0, 200, ["food", "dining"]⟩] ⟨2024, 1, 5⟩ ⟨2024, 1, 20⟩).get_breakdown
        ⟨⟨2024, 1, 1⟩, ⟨2024, 1, 31⟩⟩).map Prod.snd).sum =
      (AccountBook.mk [⟨⟨2024, 1, 5⟩, 1000, 0, ["food", "groceries"]⟩,
        ⟨⟨2024, 1, 20⟩, 0, 200, ["food", "dining"]⟩] ⟨2024, 1, 5⟩ ⟨2024, 1, 20⟩).sum_balance
        (some ⟨2024, 1, 1⟩) (some ⟨2024, 1, 31⟩) none ∧
    (∀ k v, (k, v) ∈ (AccountBook.mk [⟨⟨2024, 1, 5⟩, 1000, 0, ["food", "groceries"]⟩,
        ⟨⟨2024, 1, 20⟩, 0, 200, ["food", "dining"]⟩] ⟨2024, 1, 5⟩ ⟨2024, 1, 20⟩).get_breakdown
        ⟨⟨2024, 1, 1⟩, ⟨2024, 1, 31⟩⟩ →
      v = ((((AccountBook.mk [⟨⟨2024, 1, 5⟩, 1000, 0, ["food", "groceries"]⟩,
          ⟨⟨2024, 1, 20⟩, 0, 200, ["food", "dining"]⟩] ⟨2024, 1, 5⟩
            ⟨2024, 1, 20⟩).entries.filter fun en =>
          decide (Date.le (⟨2024, 1, 1⟩ : Date) en.date) &&
            decide (Date.le en.date ⟨2024, 1, 31⟩)).filter
          fun en => en.groups.headD "" == k).map fun en => en.income - en.outgo).sum) ∧
    (∀ en ∈ (AccountBook.mk [⟨⟨2024, 1, 5⟩, 1000, 0, ["food", "groceries"]⟩,
        ⟨⟨2024, 1, 20⟩, 0, 200, ["food", "dining"]⟩] ⟨2024, 1, 5⟩ ⟨2024, 1, 20⟩).entries,
      Date.le ⟨2024, 1, 1⟩ en.date → Date.le en.date ⟨2024, 1, 31⟩ →
      en.groups.headD "" ∈ ((AccountBook.mk [⟨⟨2024, 1, 5⟩, 1000, 0, ["food", "groceries"]⟩,
        ⟨⟨2024, 1, 20⟩, 0, 200, ["food", "dining"]⟩] ⟨2024, 1, 5⟩ ⟨2024, 1, 20⟩).get_breakdown
        ⟨⟨2024, 1, 1⟩, ⟨2024, 1, 31⟩⟩).map Prod.fst) :=
  get_breakdown_spec (AccountBook.mk [⟨⟨2024, 1, 5⟩, 1000, 0, ["food", "groceries"]⟩,
    ⟨⟨2024, 1, 20⟩, 0, 200, ["food", "dining"]⟩] ⟨2024, 1, 5⟩ ⟨2024, 1, 20⟩)
    ⟨⟨2024, 1, 1⟩, ⟨2024, 1, 31⟩⟩ (by decide)
